import Mathlib

/- Shallow embedding of the 2-D snake game: `main.py` (grid, snake entity,
fixed-step tick loop, scene state machine) and `highscores.py` (leaderboard
load/save with name sanitization), together with theorems checking the
specification's claims against these definitions. -/

namespace SnakeGame

/-! ### Config constants (main.py lines 21-33) -/

def GRID_W : ℤ := 32

def GRID_H : ℤ := 24

def MOVE_HZ_START : ℚ := 17/2

def MOVE_HZ_MAX : ℚ := 18

def SCORE_PER_FOOD : ℤ := 10

/-- `clamp(x, lo, hi)` (main.py line 41). The game applies it only to the
move rate, whose values are all small multiples of 1/4 and hence exact in
binary floating point, so ℚ is a faithful carrier. -/
def clamp (x lo hi : ℚ) : ℚ := if x < lo then lo else if x > hi then hi else x

/-! ### Snake entity (main.py lines 126-153) -/

abbrev Cell := ℤ × ℤ

structure Snake where
  body : List Cell
  dir : Cell
  pending_dir : Option Cell := none
deriving DecidableEq

/-- `Snake.occupied` returns `set(self.body)`; we keep the list, whose
membership relation is that of the Python set. -/
def Snake.occupied (s : Snake) : List Cell := s.body

/-- `Snake.head`: `self.body[0]`. In Python an empty body raises IndexError;
`headI` gives the junk value (0,0) there, and every theorem that uses `head`
assumes a non-empty body. -/
def Snake.head (s : Snake) : Cell := s.body.headI

/-- `Snake.set_dir` (main.py lines 138-142): drop the request when it is the
exact opposite of the current direction, otherwise overwrite the pending
direction. -/
def Snake.set_dir (s : Snake) (new_dir : Cell) : Snake :=
  if (-new_dir.1, -new_dir.2) = s.dir then s
  else { s with pending_dir := some new_dir }

/-- `Snake.step` (main.py lines 144-153): consume the pending direction if
set, compute the new head, insert it at index 0, and pop the tail unless
growing. -/
def Snake.step (s : Snake) (grow : Bool) : Snake :=
  let s1 := match s.pending_dir with
    | some p => { s with dir := p, pending_dir := none }
    | none => s
  let h := s1.head
  let n : Cell := (h.1 + s1.dir.1, h.2 + s1.dir.2)
  let body := n :: s1.body
  { s1 with body := if grow then body else body.dropLast }

/-! ### Food spawning (main.py lines 71-85) -/

/-- All grid cells in the row-major order of the fallback scan
(`for yy in range(GRID_H): for xx in range(GRID_W)`). -/
def gridCells : List Cell :=
  (List.range 24).flatMap fun (yy : ℕ) =>
    (List.range 32).map fun (xx : ℕ) => ((xx : ℤ), (yy : ℤ))

/-- Fallback of `rand_empty_cell` (main.py lines 82-85): the first cell of the
row-major scan that is not occupied. -/
def scanFirstFree (occupied : List Cell) : Option Cell :=
  gridCells.find? fun c => !(occupied.contains c)

/-- Draw loop of `rand_empty_cell` (main.py lines 73-85). `rand i` is the
oracle for the i-th pair of `random.randrange` calls, whose results lie in
[0,GRID_W)×[0,GRID_H) by construction. The Python loop runs 10001 failed
random draws (`attempts > 10_000`) before falling back to the scan; `fuel`
counts the remaining draws. When the grid is entirely occupied the Python
loop never returns; that case is modelled by `none` (the scan finds nothing,
and every further random draw would fail as well). -/
def randEmptyCellGo (rand : ℕ → Fin 32 × Fin 24) (occupied : List Cell) :
    ℕ → ℕ → Option Cell
  | _, 0 => scanFirstFree occupied
  | i, fuel+1 =>
    let c : Cell := (((rand i).1 : ℤ), ((rand i).2 : ℤ))
    if occupied.contains c then randEmptyCellGo rand occupied (i+1) fuel
    else some c

/-- `rand_empty_cell` (main.py lines 71-85). -/
def rand_empty_cell (rand : ℕ → Fin 32 × Fin 24) (occupied : List Cell) :
    Option Cell :=
  randEmptyCellGo rand occupied 0 10001

/-! ### highscores.py: name sanitization -/

/-- Unicode space separators other than 0x20 (category Zs). -/
def pyUniSpaceSep (n : ℕ) : Bool :=
  n == 0xA0 || n == 0x1680 || (0x2000 ≤ n && n ≤ 0x200A) || n == 0x202F ||
  n == 0x205F || n == 0x3000

/-- Python `str.isprintable` on one character: false for control characters
(C0, DEL, C1) and the line/paragraph/space separators other than 0x20.
Format, surrogate, private-use and unassigned code points (also
non-printable in Python) play no role in any claim and are treated as
printable here. -/
def pyIsPrintable (c : Char) : Bool :=
  let n := c.toNat
  (0x20 ≤ n) && (n != 0x7F) && !((0x80 ≤ n) && (n ≤ 0x9F)) &&
  !(pyUniSpaceSep n) && (n != 0x2028) && (n != 0x2029)

/-- Python `str.isspace` on one character, the character class stripped by
`str.strip()`. -/
def pyIsSpace (c : Char) : Bool :=
  let n := c.toNat
  ((0x9 ≤ n) && (n ≤ 0xD)) || ((0x1C ≤ n) && (n ≤ 0x1F)) || (n == 0x20) ||
  (n == 0x85) || pyUniSpaceSep n || (n == 0x2028) || (n == 0x2029)

/-- Python `str.strip()`: remove leading and trailing whitespace. -/
def pyStrip (l : List Char) : List Char :=
  ((l.dropWhile pyIsSpace).reverse.dropWhile pyIsSpace).reverse

/-- `_sanitize_name` (highscores.py lines 15-21): strip; default "PLAYER" if
empty; keep printable characters; replace newlines/tabs by spaces (a no-op
after the printable filter); cap at 16 characters; strip again, defaulting
to "PLAYER" if the result is empty. -/
def sanitize_name (input : String) : String :=
  let trimmed := pyStrip input.data
  if trimmed = [] then "PLAYER"
  else
    let printable := trimmed.filter pyIsPrintable
    let replaced := printable.map fun c =>
      if c = '\n' ∨ c = '\r' ∨ c = '\t' then ' ' else c
    let capped := pyStrip (replaced.take 16)
    if capped = [] then "PLAYER" else String.mk capped

/-! ### highscores.py: JSON model and load/save -/

structure HighScoreEntry where
  name : String
  score : ℤ
deriving DecidableEq

/-- JSON values as found in the leaderboard file. Numbers carry integers:
the program only ever writes integer scores, and the claims do not involve
float-valued files. -/
inductive Json where
  | null
  | bool (b : Bool)
  | num (n : ℤ)
  | str (s : String)
  | arr (items : List Json)
  | obj (fields : List (String × Json))

/-- Python `dict.get(key, default)` on a JSON object's fields. -/
def lookupField (fields : List (String × Json)) (key : String) (dflt : Json) :
    Json :=
  match fields.find? (fun kv => kv.1 == key) with
  | some kv => kv.2
  | none => dflt

/-- Python truthiness of a JSON value (used by the `name or ""` idiom in
`_sanitize_name`). -/
def jsonTruthy : Json → Bool
  | .null => false
  | .bool b => b
  | .num n => n != 0
  | .str s => !s.isEmpty
  | .arr items => !items.isEmpty
  | .obj fields => !fields.isEmpty

/-- Decimal digits to a number; `none` when empty or a non-digit occurs. -/
def digitsToNat : List Char → Option ℕ
  | [] => none
  | cs => cs.foldl (fun acc c =>
      match acc with
      | none => none
      | some a => if c.isDigit then some (a * 10 + (c.toNat - 48)) else none)
      (some 0)

/-- Python `int(s)` on a string: strip whitespace, optional sign, decimal
digits; `none` when the literal is malformed (ValueError). Underscore
group separators are out of the claims' scope and rejected here. -/
def pyIntOfString (s : String) : Option ℤ :=
  match pyStrip s.data with
  | '+' :: ds => (digitsToNat ds).map fun n => (n : ℤ)
  | '-' :: ds => (digitsToNat ds).map fun n => -(n : ℤ)
  | ds => (digitsToNat ds).map fun n => (n : ℤ)

/-- `_safe_int` (highscores.py lines 24-28): `int(x)` with the default on
any exception. `int` succeeds on numbers and booleans, parses strings, and
raises on null/lists/objects. -/
def safe_int (j : Json) (dflt : ℤ := 0) : ℤ :=
  match j with
  | .num n => n
  | .bool b => if b then 1 else 0
  | .str s => (pyIntOfString s).getD dflt
  | _ => dflt

/-- `_sanitize_name` applied to the raw JSON value of a "name" field
(load_highscores line 52). `(name or "").strip()` succeeds when the value
is a string (sanitized normally) or falsy (treated as "", giving
"PLAYER"); a truthy non-string value has no `.strip` method and raises
AttributeError, modelled as `Except.error`. -/
def sanitizeNameValue : Json → Except String String
  | .str s => .ok (sanitize_name s)
  | j => if jsonTruthy j then .error "AttributeError" else .ok "PLAYER"

/-- One step of the stable descending insertion sort: keep walking past
entries with score ≥ e's (so an equal-scored new entry lands after the
existing ones, as Python's stable sort keeps it). -/
def insertByScoreDesc (e : HighScoreEntry) :
    List HighScoreEntry → List HighScoreEntry
  | [] => [e]
  | x :: t => if x.score < e.score then e :: x :: t
              else x :: insertByScoreDesc e t

/-- Stable descending sort by score:
`entries.sort(key=lambda e: e.score, reverse=True)`. Python's sort is
stable, and the stable descending ordering of a list is unique, so this
stable insertion sort computes exactly it. -/
def sortByScoreDesc (l : List HighScoreEntry) : List HighScoreEntry :=
  l.foldr insertByScoreDesc []

/-- Per-item processing loop of `load_highscores` (highscores.py lines
49-54): skip non-object items; sanitize the name (which can raise, see
`sanitizeNameValue`); clamp the score to ≥ 0. -/
def loadEntries : List Json → Except String (List HighScoreEntry)
  | [] => .ok []
  | it :: rest =>
    match it with
    | .obj fields =>
      match sanitizeNameValue (lookupField fields "name" (.str "PLAYER")) with
      | .error e => .error e
      | .ok nm =>
        let sc := max 0 (safe_int (lookupField fields "score" (.num 0)))
        (loadEntries rest).map fun tl => ⟨nm, sc⟩ :: tl
    | _ => loadEntries rest

/-- `load_highscores` (highscores.py lines 37-56). The argument is the
parsed file content: `none` when the file is missing or `open`/`json.load`
raised (the region guarded by try/except, lines 39-45); `some payload`
otherwise. The processing of the payload (lines 47-56) is outside the
try/except, so an AttributeError raised there escapes to the caller,
modelled as `Except.error`. -/
def load_highscores (payload? : Option Json) :
    Except String (List HighScoreEntry) :=
  match payload? with
  | none => .ok []
  | some payload =>
    let items : Json := match payload with
      | .obj fields => lookupField fields "scores" (.arr [])
      | _ => .arr []
    let itemList : List Json := match items with
      | .arr l => l
      | _ => []
    (loadEntries itemList).map sortByScoreDesc

/-- Serialization written back by `save_highscore` (highscores.py line 66). -/
def payloadOfEntries (entries : List HighScoreEntry) : Json :=
  .obj [("scores", .arr (entries.map fun e =>
    .obj [("name", .str e.name), ("score", .num e.score)]))]

/-- In-memory part of `save_highscore` (highscores.py lines 59-64), with
the prior file contents already loaded as `loaded`: append the sanitized
name and clamped score, re-sort descending, truncate to
`max(1, keep_max)`. -/
def save_highscore (loaded : List HighScoreEntry) (name : String)
    (score : ℤ) (keep_max : ℤ := 50) : List HighScoreEntry :=
  let entries := loaded ++ [⟨sanitize_name name, max 0 score⟩]
  let sorted := sortByScoreDesc entries
  sorted.take (max 1 keep_max).toNat

/-- `save_highscore` including the persist step (highscores.py lines
66-73). `writeOk` tells whether the file write succeeds; on failure the
exception is swallowed (`except: pass`) and the same in-memory list is
returned either way. The second component is the payload actually written
(`none`: the write failed, nothing was persisted). -/
def save_highscore_run (loaded : List HighScoreEntry) (name : String)
    (score : ℤ) (keep_max : ℤ) (writeOk : Bool) :
    List HighScoreEntry × Option Json :=
  let entries := save_highscore loaded name score keep_max
  (entries, if writeOk then some (payloadOfEntries entries) else none)

/-! ### Game state machine (main.py lines 156-197, 360-504) -/

/-- Scene tags (main.py lines 156-160); the source uses strings drawn from
a closed set of four. -/
inductive Scene where
  | start
  | play
  | game_over
  | highscores
deriving DecidableEq

structure Game where
  scene : Scene
  snake : Snake
  food : Cell
  score : ℤ
  paused : Bool
  move_hz : ℚ
  move_accum : ℚ
  last_body : List Cell
  name : String
  saved : Bool
deriving DecidableEq

/-- `Game.spawn_food` (main.py lines 194-196). The random oracle's stream
is consumed from index 0 for each call. When the grid is entirely occupied
the Python call never returns; `getD (0,0)` supplies junk in that
unreachable case. -/
def Game.spawn_food (rand : ℕ → Fin 32 × Fin 24) (g : Game) : Game :=
  { g with food := (rand_empty_cell rand g.snake.occupied).getD (0, 0) }

/-- `Game.reset` (main.py lines 181-192): fresh snake of length 2 centered
on the grid heading right, score 0, move rate at the floor, cleared
accumulator and name entry, fresh food. -/
def Game.reset (rand : ℕ → Fin 32 × Fin 24) (g : Game) : Game :=
  let start_x := GRID_W / 2
  let start_y := GRID_H / 2
  let snake : Snake :=
    { body := [(start_x, start_y), (start_x - 1, start_y)], dir := (1, 0) }
  Game.spawn_food rand
    { g with
      snake := snake
      score := 0
      paused := false
      move_hz := MOVE_HZ_START
      move_accum := 0
      last_body := snake.body
      name := ""
      saved := false }

/-- `go_start` (main.py lines 387-389). -/
def go_start (g : Game) : Game := { g with scene := Scene.start, paused := false }

/-- `go_play` (main.py lines 391-393). -/
def go_play (g : Game) : Game := { g with scene := Scene.play, paused := false }

/-- `go_game_over` (main.py lines 395-399). -/
def go_game_over (g : Game) : Game :=
  { g with scene := Scene.game_over, paused := false, name := "", saved := false }

/-- `go_highscores` (main.py lines 401-403). -/
def go_highscores (g : Game) : Game :=
  { g with scene := Scene.highscores, paused := false }

/-- One key-down event, with the aliases of main.py collapsed (Enter =
K_RETURN, arrows = WASD). Escape/window-close quit the process before the
per-scene dispatch and are not modelled as a `Key`. `other uni` is any
remaining key with its `ev.unicode` text (none when empty). -/
inductive Key where
  | enter
  | space
  | kh
  | kr
  | kp
  | up
  | down
  | left
  | right
  | backspace
  | other (uni : Option Char)
deriving DecidableEq

/-- Key-down dispatch of the event loop (main.py lines 418-469), minus the
quit keys. In the GameOver scene, Enter additionally calls
`save_highscore(g.name, g.score)` before setting `saved`; that file effect
lives in `save_highscore`/`save_highscore_run` and is not part of `Game`. -/
def handle_keydown (rand : ℕ → Fin 32 × Fin 24) (g : Game) (k : Key) : Game :=
  if g.scene = Scene.start ∨ g.scene = Scene.highscores then
    if k = Key.enter ∨ k = Key.space then go_play (Game.reset rand g)
    else if k = Key.kh then go_highscores g
    else if k = Key.kr then go_start (Game.reset rand g)
    else g
  else if g.scene = Scene.play then
    if k = Key.up then { g with snake := g.snake.set_dir (0, -1) }
    else if k = Key.down then { g with snake := g.snake.set_dir (0, 1) }
    else if k = Key.left then { g with snake := g.snake.set_dir (-1, 0) }
    else if k = Key.right then { g with snake := g.snake.set_dir (1, 0) }
    else if k = Key.kp then { g with paused := !g.paused }
    else if k = Key.kr then go_play (Game.reset rand g)
    else if k = Key.kh then go_highscores g
    else g
  else if g.scene = Scene.game_over then
    if k = Key.kr then go_play (Game.reset rand g)
    else if k = Key.kh then go_highscores g
    else if k = Key.enter then
      if !g.saved then { g with saved := true } else g
    else if k = Key.backspace then
      if !g.saved && !g.name.isEmpty then { g with name := g.name.dropRight 1 }
      else g
    else
      match k with
      | Key.other (some ch) =>
        if !g.saved ∧ pyIsPrintable ch ∧ ch ∉ ['\r', '\n', '\t'] ∧
            g.name.length < 16 then
          { g with name := g.name.push ch }
        else g
      | _ => g
  else g

/-- The effective direction of the upcoming tick (main.py line 482):
pending if set, else current. -/
def Snake.effDir (s : Snake) : Cell := s.pending_dir.getD s.dir

/-- Whether this tick's prospective new head lands on the food
(main.py lines 483-484). -/
def willEat (g : Game) : Bool :=
  (g.snake.head.1 + g.snake.effDir.1, g.snake.head.2 + g.snake.effDir.2) = g.food

/-- The new head is outside [0,GRID_W)×[0,GRID_H) (main.py line 491). -/
def outOfBounds (c : Cell) : Prop :=
  c.1 < 0 ∨ GRID_W ≤ c.1 ∨ c.2 < 0 ∨ GRID_H ≤ c.2

instance : DecidablePred outOfBounds := fun c =>
  inferInstanceAs (Decidable (c.1 < 0 ∨ GRID_W ≤ c.1 ∨ c.2 < 0 ∨ GRID_H ≤ c.2))

/-- One iteration of the tick loop body (main.py lines 474-504): consume
1.0 of accumulator, snapshot the body, step the snake (growing when the
prospective head is on the food), then wall check, then self-collision
check against `body[1:]`, either leading to GameOver; otherwise apply the
eat effects (score, move rate, fresh food). -/
def tickOnce (rand : ℕ → Fin 32 × Fin 24) (g : Game) : Game :=
  let we := willEat g
  let s1 := g.snake.step we
  let g1 := { g with
    move_accum := g.move_accum - 1
    last_body := g.snake.body
    snake := s1 }
  if outOfBounds s1.head then go_game_over g1
  else if s1.head ∈ s1.body.tail then go_game_over g1
  else if we then
    Game.spawn_food rand
      { g1 with
        score := g1.score + SCORE_PER_FOOD
        move_hz := clamp (g1.move_hz + 1/4) MOVE_HZ_START MOVE_HZ_MAX }
  else g1

/-- The `while g.move_accum >= 1.0` loop of one frame (main.py lines
474-504), with the `break` on game over. The loop runs at most
⌈accumulator⌉ times since each iteration consumes 1.0; `fuel` is any
upper bound on that count. -/
def runTicks (rand : ℕ → Fin 32 × Fin 24) : ℕ → Game → Game
  | 0, g => g
  | fuel+1, g =>
    if 1 ≤ g.move_accum then
      let g1 := tickOnce rand g
      if g1.scene = Scene.game_over then g1
      else runTicks rand fuel g1
    else g

/-- Score and move-rate update of one tick (main.py lines 500-503), as a
function of whether the tick ate food. -/
def playTick (st : ℤ × ℚ) (ate : Bool) : ℤ × ℚ :=
  if ate then
    (st.1 + SCORE_PER_FOOD, clamp (st.2 + 1/4) MOVE_HZ_START MOVE_HZ_MAX)
  else st

/-! ### Helper lemmas about `Snake.step` and `Snake.set_dir` -/

/-- The four unit direction vectors of the game (spec §3; the only values
`handle_keydown` ever passes to `set_dir`, and the direction of every
snake `Game.reset` creates). -/
def unitDirs : List Cell := [(1, 0), (-1, 0), (0, 1), (0, -1)]

theorem step_dir (s : Snake) (grow : Bool) : (s.step grow).dir = s.effDir := by
  obtain ⟨body, dir, pend⟩ := s
  unfold Snake.step Snake.effDir
  cases pend <;> rfl

theorem step_pending (s : Snake) (grow : Bool) :
    (s.step grow).pending_dir = none := by
  obtain ⟨body, dir, pend⟩ := s
  unfold Snake.step
  cases pend <;> rfl

theorem step_body (s : Snake) (grow : Bool) (h : s.body ≠ []) :
    (s.step grow).body =
      (s.head.1 + s.effDir.1, s.head.2 + s.effDir.2) ::
        (if grow then s.body else s.body.dropLast) := by
  obtain ⟨body, dir, pend⟩ := s
  unfold Snake.step Snake.effDir Snake.head
  cases pend <;> cases grow <;>
    simp [List.dropLast_cons_of_ne_nil h]

theorem step_head (s : Snake) (grow : Bool) (h : s.body ≠ []) :
    (s.step grow).head = (s.head.1 + s.effDir.1, s.head.2 + s.effDir.2) := by
  unfold Snake.head
  rw [step_body s grow h]
  rfl

theorem set_dir_dir (s : Snake) (d : Cell) : (s.set_dir d).dir = s.dir := by
  unfold Snake.set_dir
  split <;> rfl

theorem foldl_set_dir_dir (ds : List Cell) (s : Snake) :
    (ds.foldl Snake.set_dir s).dir = s.dir := by
  induction ds generalizing s with
  | nil => rfl
  | cons d ds ih => rw [List.foldl_cons, ih, set_dir_dir]

theorem foldl_set_dir_pending (ds : List Cell) (s : Snake)
    (hp : ∀ p, s.pending_dir = some p → (-p.1, -p.2) ≠ s.dir) :
    ∀ p, (ds.foldl Snake.set_dir s).pending_dir = some p →
      (-p.1, -p.2) ≠ s.dir := by
  induction ds generalizing s with
  | nil => exact hp
  | cons d ds ih =>
    rw [List.foldl_cons]
    have hdir : (s.set_dir d).dir = s.dir := set_dir_dir s d
    refine fun p hsome => ?_
    have step : ∀ q, (s.set_dir d).pending_dir = some q →
        (-q.1, -q.2) ≠ (s.set_dir d).dir := by
      intro q hq
      rw [hdir]
      unfold Snake.set_dir at hq
      by_cases hopp : (-d.1, -d.2) = s.dir
      · rw [if_pos hopp] at hq
        exact hp q hq
      · rw [if_neg hopp] at hq
        simp only [Option.some.injEq] at hq
        subst hq
        exact hopp
    have := ih (s.set_dir d) (by simpa [hdir] using step) p hsome
    simpa [hdir] using this

/-! ### C2: step semantics -/

/-- C2: for every snake with non-empty body, `step(grow)` first consumes
the pending direction when one is set (it becomes the current direction
and is cleared), otherwise keeps the current direction; the new head
equals old head + direction applied and sits at index 0; `step false`
preserves the body length and `step true` grows it by exactly one. -/
theorem step_spec (s : Snake) (grow : Bool) (h : s.body ≠ []) :
    (s.step grow).dir = s.pending_dir.getD s.dir ∧
    (s.step grow).pending_dir = none ∧
    (s.step grow).body =
      (s.head.1 + s.effDir.1, s.head.2 + s.effDir.2) ::
        (if grow then s.body else s.body.dropLast) ∧
    (s.step grow).head = (s.head.1 + s.effDir.1, s.head.2 + s.effDir.2) ∧
    (s.step false).body.length = s.body.length ∧
    (s.step true).body.length = s.body.length + 1 := by
  refine ⟨step_dir s grow, step_pending s grow, step_body s grow h,
    step_head s grow h, ?_, ?_⟩
  · rw [step_body s false h]
    simp only [if_neg Bool.false_ne_true, List.length_cons, List.length_dropLast]
    have : 0 < s.body.length := List.length_pos.mpr h
    omega
  · rw [step_body s true h]
    simp

/-- Witness for C2 at a concrete snake. -/
theorem step_spec_witness :
    let s : Snake := { body := [(3, 4), (2, 4)], dir := (1, 0),
                       pending_dir := some (0, 1) }
    (s.step false).dir = s.pending_dir.getD s.dir ∧
    (s.step false).pending_dir = none ∧
    (s.step false).body =
      (s.head.1 + s.effDir.1, s.head.2 + s.effDir.2) ::
        (if false then s.body else s.body.dropLast) ∧
    (s.step false).head = (s.head.1 + s.effDir.1, s.head.2 + s.effDir.2) ∧
    (s.step false).body.length = s.body.length ∧
    (s.step true).body.length = s.body.length + 1 :=
  step_spec { body := [(3, 4), (2, 4)], dir := (1, 0),
              pending_dir := some (0, 1) } false (by decide)

/-! ### C3: no instant reversal -/

/-- C3: starting from a tick boundary (pending direction cleared, as
`step` always leaves it) with a unit current direction, after any
sequence of `set_dir` inputs the current direction is untouched and the
effective direction of the next tick is never the exact opposite of it;
a request for the exact opposite is silently dropped (the snake is left
unchanged), a non-opposite request overwrites the pending direction, and
`set_dir(opposite)` followed by `step` leaves the direction unchanged. -/
theorem no_instant_reversal (s : Snake) (ds : List Cell) (grow : Bool)
    (hdir : s.dir ∈ unitDirs) (hp : s.pending_dir = none) :
    ((ds.foldl Snake.set_dir s).dir = s.dir ∧
     (ds.foldl Snake.set_dir s).effDir ≠ (-s.dir.1, -s.dir.2)) ∧
    s.set_dir (-s.dir.1, -s.dir.2) = s ∧
    ((s.set_dir (-s.dir.1, -s.dir.2)).step grow).dir = s.dir ∧
    (∀ (t : Snake) (d : Cell), (-d.1, -d.2) ≠ t.dir →
      (t.set_dir d).pending_dir = some d) := by
  have hdrop : s.set_dir (-s.dir.1, -s.dir.2) = s := by
    unfold Snake.set_dir
    rw [if_pos (by simp)]
  have hne_opp : s.dir ≠ (-s.dir.1, -s.dir.2) := by
    simp only [unitDirs, List.mem_cons, List.not_mem_nil, or_false] at hdir
    rcases hdir with h1 | h1 | h1 | h1 <;> rw [h1] <;> decide
  refine ⟨⟨foldl_set_dir_dir ds s, ?_⟩, hdrop, ?_, ?_⟩
  · unfold Snake.effDir
    cases hq : (ds.foldl Snake.set_dir s).pending_dir with
    | none =>
      simpa [foldl_set_dir_dir ds s] using hne_opp
    | some q =>
      have hqs := foldl_set_dir_pending ds s (by rw [hp]; intro p hps; cases hps) q hq
      simp only [Option.getD_some]
      intro hcon
      apply hqs
      rw [hcon]
      simp [Prod.ext_iff]
  · rw [hdrop, step_dir]
    unfold Snake.effDir
    rw [hp]
    rfl
  · intro t d hne
    unfold Snake.set_dir
    rw [if_neg hne]

/-- Witness for C3 at a concrete snake and input sequence. -/
theorem no_instant_reversal_witness :
    let s : Snake := { body := [(3, 4), (2, 4)], dir := (1, 0) }
    let ds : List Cell := [(-1, 0), (0, 1), (-1, 0)]
    ((ds.foldl Snake.set_dir s).dir = s.dir ∧
     (ds.foldl Snake.set_dir s).effDir ≠ (-s.dir.1, -s.dir.2)) ∧
    s.set_dir (-s.dir.1, -s.dir.2) = s ∧
    ((s.set_dir (-s.dir.1, -s.dir.2)).step true).dir = s.dir ∧
    (∀ (t : Snake) (d : Cell), (-d.1, -d.2) ≠ t.dir →
      (t.set_dir d).pending_dir = some d) :=
  no_instant_reversal { body := [(3, 4), (2, 4)], dir := (1, 0) }
    [(-1, 0), (0, 1), (-1, 0)] true (by decide) rfl

/-! ### C10: step preserves the geometric snake invariants -/

/-- Two cells at Manhattan distance exactly 1. -/
def adjacentCell (a b : Cell) : Prop :=
  (a.1 - b.1).natAbs + (a.2 - b.2).natAbs = 1

instance : DecidableRel adjacentCell := fun a b =>
  inferInstanceAs (Decidable ((a.1 - b.1).natAbs + (a.2 - b.2).natAbs = 1))

theorem chain'_dropLast {α : Type} {R : α → α → Prop} (l : List α)
    (h : List.Chain' R l) : List.Chain' R l.dropLast := by
  induction l with
  | nil => exact h
  | cons a t ih =>
    cases t with
    | nil => simp
    | cons b t2 =>
      rw [List.dropLast_cons_of_ne_nil (by simp)]
      rw [List.chain'_cons] at h
      have htail := ih h.2
      cases t2 with
      | nil => simp
      | cons c t3 =>
        rw [List.dropLast_cons_of_ne_nil (by simp)] at htail ⊢
        exact List.chain'_cons.mpr ⟨h.1, htail⟩

/-- C10 (implicit invariant): for a snake whose directions are among the
four unit vectors and whose non-empty body is connected (consecutive
cells at Manhattan distance 1), `step` preserves all of it for either
value of `grow`: the body stays non-empty and connected, the new head is
adjacent to the previous head, and with `grow = false` only the tail
cell is removed. -/
theorem step_preserves_invariants (s : Snake) (grow : Bool)
    (hdir : s.dir ∈ unitDirs)
    (hpend : ∀ p, s.pending_dir = some p → p ∈ unitDirs)
    (hne : s.body ≠ []) (hchain : List.Chain' adjacentCell s.body) :
    (s.step grow).body ≠ [] ∧
    List.Chain' adjacentCell (s.step grow).body ∧
    adjacentCell (s.step grow).head s.head ∧
    (s.step grow).dir ∈ unitDirs ∧
    (∀ p, (s.step grow).pending_dir = some p → p ∈ unitDirs) ∧
    (grow = false → (s.step grow).body = (s.step grow).head :: s.body.dropLast) := by
  have heff : s.effDir ∈ unitDirs := by
    unfold Snake.effDir
    cases hq : s.pending_dir with
    | none => exact hdir
    | some q => exact hpend q hq
  have hadj : adjacentCell (s.head.1 + s.effDir.1, s.head.2 + s.effDir.2) s.head := by
    simp only [unitDirs, List.mem_cons, List.not_mem_nil, or_false] at heff
    rcases heff with h1 | h1 | h1 | h1 <;> rw [h1] <;> simp [adjacentCell]
  have hbody := step_body s grow hne
  have hhead := step_head s grow hne
  obtain ⟨x, t⟩ := List.exists_cons_of_ne_nil hne
  obtain ⟨t, hx⟩ := t
  have hheadI : s.head = x := by rw [Snake.head, hx]; rfl
  refine ⟨by rw [hbody]; simp, ?_, by rw [hhead]; exact hadj, ?_, ?_, ?_⟩
  · cases grow with
    | true =>
      have hb : (s.step true).body =
          (s.head.1 + s.effDir.1, s.head.2 + s.effDir.2) :: s.body := by
        rw [hbody]; simp
      rw [hb]
      refine List.chain'_cons'.mpr ⟨?_, hchain⟩
      intro y hy
      rw [hx] at hy
      simp only [List.head?_cons, Option.mem_def, Option.some.injEq] at hy
      rw [← hy, ← hheadI]
      exact hadj
    | false =>
      have hb : (s.step false).body =
          (s.head.1 + s.effDir.1, s.head.2 + s.effDir.2) :: s.body.dropLast := by
        rw [hbody]; simp
      rw [hb]
      refine List.chain'_cons'.mpr ⟨?_, chain'_dropLast _ hchain⟩
      intro y hy
      rw [hx] at hy
      cases t with
      | nil => simp at hy
      | cons z t2 =>
        rw [List.dropLast_cons_of_ne_nil (by simp)] at hy
        simp only [List.head?_cons, Option.mem_def, Option.some.injEq] at hy
        rw [← hy, ← hheadI]
        exact hadj
  · rw [step_dir]
    exact heff
  · intro p hps
    rw [step_pending] at hps
    cases hps
  · intro hgrow
    rw [hbody, hhead, hgrow]
    simp

/-- Witness for C10 at a concrete snake. -/
theorem step_preserves_invariants_witness :
    let s : Snake := { body := [(3, 4), (2, 4), (2, 5)], dir := (0, -1),
                       pending_dir := some (1, 0) }
    (s.step false).body ≠ [] ∧
    List.Chain' adjacentCell (s.step false).body ∧
    adjacentCell (s.step false).head s.head ∧
    (s.step false).dir ∈ unitDirs ∧
    (∀ p, (s.step false).pending_dir = some p → p ∈ unitDirs) ∧
    (false = false → (s.step false).body = (s.step false).head :: s.body.dropLast) :=
  step_preserves_invariants
    { body := [(3, 4), (2, 4), (2, 5)], dir := (0, -1), pending_dir := some (1, 0) }
    false (by decide) (by intro p hp; cases hp; decide) (by decide)
    (List.chain'_cons.mpr ⟨by decide, List.chain'_cons.mpr ⟨by decide, by simp⟩⟩)

/-! ### C1: game-over condition of a Play tick -/

/-- The collision condition checked right after the snake's step of a tick
(main.py lines 491-498): new head out of bounds, or new head among the
post-move body cells excluding index 0 (`body[1:]`). -/
def collisionAfterStep (g : Game) : Prop :=
  outOfBounds (g.snake.step (willEat g)).head ∨
  (g.snake.step (willEat g)).head ∈ (g.snake.step (willEat g)).body.tail

instance (g : Game) : Decidable (collisionAfterStep g) :=
  inferInstanceAs (Decidable (outOfBounds (g.snake.step (willEat g)).head ∨
    (g.snake.step (willEat g)).head ∈ (g.snake.step (willEat g)).body.tail))

/-- A fixed random oracle for concrete games: every draw is (5, 5). -/
def randC : ℕ → Fin 32 × Fin 24 := fun _ => (5, 5)

/-- C1: in the Play scene a tick moves to GameOver exactly when, after the
snake's step, the new head is outside [0,GRID_W)×[0,GRID_H) or occurs in
the post-move body excluding its own cell at index 0; and a game-over tick
aborts the remaining ticks of the frame (the loop returns immediately). -/
theorem tick_game_over_iff (rand : ℕ → Fin 32 × Fin 24) (g : Game)
    (hplay : g.scene = Scene.play) :
    ((tickOnce rand g).scene = Scene.game_over ↔ collisionAfterStep g) ∧
    ∀ fuel : ℕ, 1 ≤ g.move_accum →
      (tickOnce rand g).scene = Scene.game_over →
      runTicks rand (fuel + 1) g = tickOnce rand g := by
  constructor
  · unfold tickOnce collisionAfterStep
    by_cases h1 : outOfBounds (g.snake.step (willEat g)).head
    · simp [h1, go_game_over]
    · by_cases h2 : (g.snake.step (willEat g)).head ∈
          (g.snake.step (willEat g)).body.tail
      · simp [h1, h2, go_game_over]
      · by_cases h3 : willEat g = true
        · rw [h3] at h1 h2
          simp [h1, h2, h3, Game.spawn_food, hplay]
        · have h3f : willEat g = false := by simpa using h3
          rw [h3f] at h1 h2
          simp [h1, h2, h3f, hplay]
  · intro fuel hacc hgo
    simp only [runTicks]
    rw [if_pos hacc, if_pos hgo]

/-- A concrete Play-scene game about to hit the right wall. -/
def gWall : Game :=
  { scene := Scene.play,
    snake := { body := [(31, 12), (30, 12)], dir := (1, 0) },
    food := (5, 5), score := 0, paused := false,
    move_hz := MOVE_HZ_START, move_accum := 1,
    last_body := [(31, 12), (30, 12)], name := "", saved := false }

/-- Witness for C1 at `gWall`: the tick hits the wall, the loop aborts. -/
theorem tick_game_over_iff_witness :
    ((tickOnce randC gWall).scene = Scene.game_over ↔ collisionAfterStep gWall) ∧
    runTicks randC 1 gWall = tickOnce randC gWall :=
  ⟨(tick_game_over_iff randC gWall rfl).1,
   (tick_game_over_iff randC gWall rfl).2 0 (by norm_num [gWall]) (by decide)⟩

/-! ### C8: HighScores scene transitions -/

/-- A concrete game sitting in the HighScores scene. -/
def gHS : Game :=
  { scene := Scene.highscores,
    snake := { body := [(16, 12), (15, 12)], dir := (1, 0) },
    food := (5, 5), score := 0, paused := false,
    move_hz := MOVE_HZ_START, move_accum := 0,
    last_body := [(16, 12), (15, 12)], name := "", saved := false }

/-- C8 counterexample: in the HighScores scene the restart key R resets
the session but transitions to the Start scene, not to Play as the claim
states (main.py lines 429-431 are shared by Start and HighScores). -/
theorem highscores_restart_counterexample :
    (handle_keydown randC gHS Key.kr).scene = Scene.start ∧
    Scene.start ≠ Scene.play :=
  ⟨by decide, by decide⟩

/-- C8 amended: from HighScores, a confirm input (Enter/Space) performs a
fresh reset and moves to Play; the restart input R performs a fresh reset
but moves to Start (not Play); the show-scores key keeps the scene at
HighScores, and every other (non-quit) key leaves the game unchanged. -/
theorem highscores_transitions_amended (rand : ℕ → Fin 32 × Fin 24) (g : Game)
    (hhs : g.scene = Scene.highscores) :
    handle_keydown rand g Key.enter = go_play (Game.reset rand g) ∧
    handle_keydown rand g Key.space = go_play (Game.reset rand g) ∧
    handle_keydown rand g Key.kr = go_start (Game.reset rand g) ∧
    (handle_keydown rand g Key.kr).scene = Scene.start ∧
    (handle_keydown rand g Key.kh).scene = Scene.highscores ∧
    ∀ k : Key, k ∉ [Key.enter, Key.space, Key.kr, Key.kh] →
      handle_keydown rand g k = g := by
  refine ⟨?_, ?_, ?_, ?_, ?_, ?_⟩
  · simp [handle_keydown, hhs]
  · simp [handle_keydown, hhs]
  · simp [handle_keydown, hhs]
  · simp [handle_keydown, hhs, go_start]
  · simp [handle_keydown, hhs, go_highscores]
  · intro k hk
    cases k <;> simp_all [handle_keydown, hhs]

/-- Witness for C8 at `gHS`. -/
theorem highscores_transitions_amended_witness :
    handle_keydown randC gHS Key.enter = go_play (Game.reset randC gHS) ∧
    handle_keydown randC gHS Key.space = go_play (Game.reset randC gHS) ∧
    handle_keydown randC gHS Key.kr = go_start (Game.reset randC gHS) ∧
    (handle_keydown randC gHS Key.kr).scene = Scene.start ∧
    (handle_keydown randC gHS Key.kh).scene = Scene.highscores ∧
    ∀ k : Key, k ∉ [Key.enter, Key.space, Key.kr, Key.kh] →
      handle_keydown randC gHS k = gHS :=
  highscores_transitions_amended randC gHS rfl

/-! ### C4: food spawn termination and correctness -/

theorem mem_gridCells (c : Cell) :
    c ∈ gridCells ↔ 0 ≤ c.1 ∧ c.1 < 32 ∧ 0 ≤ c.2 ∧ c.2 < 24 := by
  obtain ⟨x, y⟩ := c
  unfold gridCells
  rw [List.mem_flatMap]
  constructor
  · rintro ⟨yy, hyy, hmem⟩
    rw [List.mem_range] at hyy
    rw [List.mem_map] at hmem
    obtain ⟨xx, hxx, heq⟩ := hmem
    rw [List.mem_range] at hxx
    rw [Prod.mk.injEq] at heq
    obtain ⟨hx, hy⟩ := heq
    subst hx
    subst hy
    exact ⟨Int.natCast_nonneg xx,
      show ((xx : ℤ)) < 32 by exact_mod_cast hxx,
      Int.natCast_nonneg yy,
      show ((yy : ℤ)) < 24 by exact_mod_cast hyy⟩
  · rintro ⟨hx0, hx, hy0, hy⟩
    refine ⟨y.toNat, ?_, ?_⟩
    · rw [List.mem_range]; omega
    · rw [List.mem_map]
      refine ⟨x.toNat, ?_, ?_⟩
      · rw [List.mem_range]; omega
      · rw [Prod.mk.injEq]
        constructor <;> omega

theorem scanFirstFree_spec (occupied : List Cell)
    (hfree : ∃ c ∈ gridCells, c ∉ occupied) :
    ∃ c, scanFirstFree occupied = some c ∧ c ∈ gridCells ∧ c ∉ occupied := by
  obtain ⟨c0, hc0, hno⟩ := hfree
  have hsome : (gridCells.find? fun c => !(occupied.contains c)).isSome := by
    rw [List.find?_isSome]
    exact ⟨c0, hc0, by simpa using hno⟩
  obtain ⟨c, hc⟩ := Option.isSome_iff_exists.mp hsome
  refine ⟨c, hc, List.mem_of_find?_eq_some hc, ?_⟩
  have hp := List.find?_some hc
  simpa using hp

theorem randEmptyCellGo_spec (rand : ℕ → Fin 32 × Fin 24)
    (occupied : List Cell) (hfree : ∃ c ∈ gridCells, c ∉ occupied) :
    ∀ (fuel i : ℕ), ∃ c, randEmptyCellGo rand occupied i fuel = some c ∧
      c ∈ gridCells ∧ c ∉ occupied := by
  intro fuel
  induction fuel with
  | zero =>
    intro i
    simpa only [randEmptyCellGo] using scanFirstFree_spec occupied hfree
  | succ n ih =>
    intro i
    simp only [randEmptyCellGo]
    by_cases hocc :
        occupied.contains (((rand i).1 : ℤ), ((rand i).2 : ℤ)) = true
    · rw [if_pos hocc]
      exact ih (i + 1)
    · rw [if_neg hocc]
      refine ⟨_, rfl, ?_, ?_⟩
      · rw [mem_gridCells]
        have h1 : ((rand i).1 : ℤ) < 32 := by exact_mod_cast (rand i).1.isLt
        have h2 : ((rand i).2 : ℤ) < 24 := by exact_mod_cast (rand i).2.isLt
        exact ⟨Int.natCast_nonneg _, h1, Int.natCast_nonneg _, h2⟩
      · simpa using hocc

/-- C5 helper is below; C4 main theorem: for every occupied set that is a
strict subset of the grid (contained in it and missing at least one grid
cell), `rand_empty_cell` terminates — the random draws are capped at 10001
attempts, after which the exhaustive row-major scan returns the first free
cell — and its result is a grid cell not in the occupied set. -/
theorem rand_empty_cell_spec (rand : ℕ → Fin 32 × Fin 24)
    (occupied : List Cell)
    (hsub : ∀ c ∈ occupied, c ∈ gridCells)
    (hfree : ∃ c ∈ gridCells, c ∉ occupied) :
    ∃ c, rand_empty_cell rand occupied = some c ∧
      c ∈ gridCells ∧ c ∉ occupied :=
  randEmptyCellGo_spec rand occupied hfree 10001 0

/-- Witness for C4: a single occupied cell. -/
theorem rand_empty_cell_spec_witness :
    (∀ c ∈ [((0 : ℤ), (0 : ℤ))], c ∈ gridCells) ∧
    (∃ c ∈ gridCells, c ∉ [((0 : ℤ), (0 : ℤ))]) ∧
    ∃ c, rand_empty_cell randC [((0 : ℤ), (0 : ℤ))] = some c ∧
      c ∈ gridCells ∧ c ∉ [((0 : ℤ), (0 : ℤ))] :=
  ⟨by decide, by decide,
   rand_empty_cell_spec randC [((0 : ℤ), (0 : ℤ))] (by decide) (by decide)⟩

/-! ### C5: score and move rate after N food-eating ticks -/

theorem clamp_eat (k : ℕ) :
    clamp (min MOVE_HZ_MAX (MOVE_HZ_START + (k : ℚ) * (1/4)) + 1/4)
      MOVE_HZ_START MOVE_HZ_MAX =
    min MOVE_HZ_MAX (MOVE_HZ_START + ((k : ℚ) + 1) * (1/4)) := by
  have hk : (0 : ℚ) ≤ (k : ℚ) := Nat.cast_nonneg k
  unfold clamp MOVE_HZ_START MOVE_HZ_MAX
  rcases le_total (18 : ℚ) (17/2 + (k : ℚ) * (1/4)) with hsat | hsat
  · rw [min_eq_left hsat]
    rw [if_neg (by norm_num), if_pos (by norm_num)]
    rw [min_eq_left (by linarith)]
  · rw [min_eq_right hsat]
    rw [if_neg (by linarith)]
    by_cases htop : (18 : ℚ) < 17/2 + (k : ℚ) * (1/4) + 1/4
    · rw [if_pos htop, min_eq_left (by linarith)]
    · rw [if_neg htop, min_eq_right (by linarith)]
      ring

theorem foldl_playTick (l : List Bool) :
    ∀ k : ℕ,
      l.foldl playTick
        (SCORE_PER_FOOD * (k : ℤ),
         min MOVE_HZ_MAX (MOVE_HZ_START + (k : ℚ) * (1/4))) =
      (SCORE_PER_FOOD * ((k + l.count true : ℕ) : ℤ),
       min MOVE_HZ_MAX (MOVE_HZ_START + ((k + l.count true : ℕ) : ℚ) * (1/4))) := by
  induction l with
  | nil =>
    intro k
    simp
  | cons b t ih =>
    intro k
    rw [List.foldl_cons]
    cases b with
    | false =>
      have hstep : playTick
          (SCORE_PER_FOOD * (k : ℤ),
           min MOVE_HZ_MAX (MOVE_HZ_START + (k : ℚ) * (1/4))) false =
          (SCORE_PER_FOOD * (k : ℤ),
           min MOVE_HZ_MAX (MOVE_HZ_START + (k : ℚ) * (1/4))) := by
        simp [playTick]
      rw [hstep, ih k]
      simp [List.count_cons]
    | true =>
      have hstep : playTick
          (SCORE_PER_FOOD * (k : ℤ),
           min MOVE_HZ_MAX (MOVE_HZ_START + (k : ℚ) * (1/4))) true =
          (SCORE_PER_FOOD * ((k + 1 : ℕ) : ℤ),
           min MOVE_HZ_MAX (MOVE_HZ_START + ((k + 1 : ℕ) : ℚ) * (1/4))) := by
        simp only [playTick, if_pos rfl]
        rw [Prod.mk.injEq]
        constructor
        · push_cast; ring
        · push_cast; exact clamp_eat k
      rw [hstep, ih (k + 1)]
      have hc : (true :: t).count true = t.count true + 1 := by simp
      rw [hc]
      have hn : k + 1 + t.count true = k + (t.count true + 1) := by omega
      rw [hn]

theorem foldl_playTick_mono (l : List Bool) :
    ∀ st : ℤ × ℚ, st.1 ≤ (l.foldl playTick st).1 := by
  induction l with
  | nil => intro st; exact le_refl _
  | cons b t ih =>
    intro st
    rw [List.foldl_cons]
    refine le_trans ?_ (ih (playTick st b))
    cases b <;> simp [playTick, SCORE_PER_FOOD]

/-- C5: in a session with score/move-rate updates applied per tick
(`playTick` is exactly the update of main.py lines 500-503), starting
from a fresh reset (score 0, move rate at the floor 8.5), after a tick
sequence with N food-eating ticks the score is N × SCORE_PER_FOOD and the
move rate is min(18, 8.5 + N × 0.25); the score is monotonically
non-decreasing; and a non-colliding `tickOnce` updates score and move
rate exactly by `playTick`. -/
theorem score_move_rate_spec (l : List Bool) (g : Game)
    (rand : ℕ → Fin 32 × Fin 24) (hno : ¬ collisionAfterStep g) :
    (l.foldl playTick (0, MOVE_HZ_START)).1 =
      SCORE_PER_FOOD * (l.count true : ℤ) ∧
    (l.foldl playTick (0, MOVE_HZ_START)).2 =
      min MOVE_HZ_MAX (MOVE_HZ_START + (l.count true : ℚ) * (1/4)) ∧
    (∀ st : ℤ × ℚ, st.1 ≤ (l.foldl playTick st).1) ∧
    ((tickOnce rand g).score, (tickOnce rand g).move_hz) =
      playTick (g.score, g.move_hz) (willEat g) := by
  have h0 : ((0 : ℤ), MOVE_HZ_START) =
      (SCORE_PER_FOOD * ((0 : ℕ) : ℤ),
       min MOVE_HZ_MAX (MOVE_HZ_START + ((0 : ℕ) : ℚ) * (1/4))) := by
    rw [Prod.mk.injEq]
    constructor
    · simp
    · rw [min_eq_right (by norm_num [MOVE_HZ_START, MOVE_HZ_MAX])]
      simp
  have hfold := foldl_playTick l 0
  rw [← h0] at hfold
  simp only [Nat.zero_add] at hfold
  refine ⟨by rw [hfold], by rw [hfold], foldl_playTick_mono l, ?_⟩
  unfold collisionAfterStep at hno
  push_neg at hno
  obtain ⟨h1, h2⟩ := hno
  by_cases h3 : willEat g = true
  · rw [h3] at h1 h2
    simp [tickOnce, Game.spawn_food, playTick, h1, h2, h3]
  · have h3f : willEat g = false := by simpa using h3
    rw [h3f] at h1 h2
    simp [tickOnce, playTick, h1, h2, h3f]

/-- A concrete collision-free Play-scene game for the C5 witness. -/
def gPlay : Game :=
  { scene := Scene.play,
    snake := { body := [(16, 12), (15, 12)], dir := (1, 0) },
    food := (5, 5), score := 0, paused := false,
    move_hz := MOVE_HZ_START, move_accum := 1,
    last_body := [(16, 12), (15, 12)], name := "", saved := false }

/-- Witness for C5 at a concrete tick sequence and game. -/
theorem score_move_rate_spec_witness :
    (([true, false, true].foldl playTick (0, MOVE_HZ_START)).1 =
      SCORE_PER_FOOD * (([true, false, true].count true : ℕ) : ℤ) ∧
    ([true, false, true].foldl playTick (0, MOVE_HZ_START)).2 =
      min MOVE_HZ_MAX
        (MOVE_HZ_START + (([true, false, true].count true : ℕ) : ℚ) * (1/4)) ∧
    (∀ st : ℤ × ℚ, st.1 ≤ ([true, false, true].foldl playTick st).1) ∧
    ((tickOnce randC gPlay).score, (tickOnce randC gPlay).move_hz) =
      playTick (gPlay.score, gPlay.move_hz) (willEat gPlay)) :=
  score_move_rate_spec [true, false, true] gPlay randC (by decide)

/-! ### Name sanitization: well-formedness and idempotence -/

theorem string_mk_data (s : String) : String.mk s.data = s := by
  cases s
  rfl

theorem dropWhile_head?_false {α : Type} {p : α → Bool} {l : List α} {a : α}
    (h : (l.dropWhile p).head? = some a) : p a = false := by
  induction l with
  | nil => simp at h
  | cons x t ih =>
    rw [List.dropWhile_cons] at h
    by_cases hp : p x = true
    · rw [if_pos hp] at h
      exact ih h
    · rw [if_neg hp] at h
      simp only [List.head?_cons, Option.some.injEq] at h
      rw [← h]
      exact Bool.not_eq_true _ |>.mp hp

theorem dropWhile_eq_self_of_head? {α : Type} {p : α → Bool} {l : List α}
    (h : ∀ a, l.head? = some a → p a = false) : l.dropWhile p = l := by
  cases l with
  | nil => rfl
  | cons x t =>
    rw [List.dropWhile_cons, if_neg]
    rw [h x rfl]
    simp

theorem pyStrip_sublist (l : List Char) : (pyStrip l).Sublist l := by
  unfold pyStrip
  have h1 : (l.dropWhile pyIsSpace).Sublist l := List.dropWhile_sublist _
  have h2 := (@List.dropWhile_sublist Char
    ((l.dropWhile pyIsSpace).reverse) pyIsSpace).reverse
  rw [List.reverse_reverse] at h2
  exact h2.trans h1

theorem pyStrip_idem (l : List Char) : pyStrip (pyStrip l) = pyStrip l := by
  have key : ∀ m : List Char,
      ((m.dropWhile pyIsSpace).reverse.dropWhile pyIsSpace).reverse.dropWhile
        pyIsSpace =
      ((m.dropWhile pyIsSpace).reverse.dropWhile pyIsSpace).reverse := by
    intro m
    apply dropWhile_eq_self_of_head?
    intro a ha
    rw [List.head?_reverse] at ha
    set w := (m.dropWhile pyIsSpace).reverse with hw
    have hsuf : (w.dropWhile pyIsSpace) <:+ w := List.dropWhile_suffix _
    obtain ⟨s, hs⟩ := hsuf
    have hne : w.dropWhile pyIsSpace ≠ [] := by
      intro hnil
      rw [hnil] at ha
      simp at ha
    have hlast : (w.dropWhile pyIsSpace).getLast? = w.getLast? := by
      conv_rhs => rw [← hs]
      rw [List.getLast?_append_of_ne_nil s hne]
    rw [hlast, hw, List.getLast?_reverse] at ha
    exact dropWhile_head?_false ha
  unfold pyStrip
  rw [key l, List.reverse_reverse, List.dropWhile_idempotent]

/-- Shape of every `_sanitize_name` result: non-empty, at most 16
characters, all printable, and invariant under another strip. -/
theorem sanitize_name_wf (s : String) :
    (sanitize_name s).data ≠ [] ∧
    (sanitize_name s).data.length ≤ 16 ∧
    (∀ c ∈ (sanitize_name s).data, pyIsPrintable c = true) ∧
    pyStrip (sanitize_name s).data = (sanitize_name s).data := by
  simp only [sanitize_name]
  by_cases h1 : pyStrip s.data = []
  · rw [if_pos h1]
    exact ⟨by decide, by decide, by decide, by decide⟩
  · rw [if_neg h1]
    by_cases h2 : pyStrip ((((pyStrip s.data).filter pyIsPrintable).map fun c =>
        if c = '\n' ∨ c = '\r' ∨ c = '\t' then ' ' else c).take 16) = []
    · rw [if_pos h2]
      exact ⟨by decide, by decide, by decide, by decide⟩
    · rw [if_neg h2]
      refine ⟨h2, ?_, ?_, pyStrip_idem _⟩
      · exact le_trans (pyStrip_sublist _).length_le (List.length_take_le _ _)
      · intro c hc
        have hc3 : c ∈ (((pyStrip s.data).filter pyIsPrintable).map fun c =>
            if c = '\n' ∨ c = '\r' ∨ c = '\t' then ' ' else c) :=
          List.Sublist.mem (List.Sublist.mem hc (pyStrip_sublist _))
            (List.take_sublist _ _)
        rw [List.mem_map] at hc3
        obtain ⟨c0, hc0, heq⟩ := hc3
        have hp0 : pyIsPrintable c0 = true := List.of_mem_filter hc0
        by_cases hnl : c0 = '\n' ∨ c0 = '\r' ∨ c0 = '\t'
        · rw [if_pos hnl] at heq
          rw [← heq]
          decide
        · rw [if_neg hnl] at heq
          rw [← heq]
          exact hp0

theorem sanitize_name_idem (s : String) :
    sanitize_name (sanitize_name s) = sanitize_name s := by
  obtain ⟨hne, hlen, hprint, hstrip⟩ := sanitize_name_wf s
  conv_lhs => rw [sanitize_name]
  simp only
  rw [hstrip, if_neg hne]
  rw [List.filter_eq_self.mpr hprint]
  have hmap : ((sanitize_name s).data.map fun c =>
      if c = '\n' ∨ c = '\r' ∨ c = '\t' then ' ' else c) =
      (sanitize_name s).data := by
    have hmapeq : ∀ a ∈ (sanitize_name s).data,
        (fun c => if c = '\n' ∨ c = '\r' ∨ c = '\t' then ' ' else c) a =
          id a := by
      intro a ha
      have hpa := hprint a ha
      show (if a = '\n' ∨ a = '\r' ∨ a = '\t' then ' ' else a) = id a
      rw [if_neg]
      · rfl
      · rintro (h | h | h) <;> rw [h] at hpa <;> simp [pyIsPrintable] at hpa
    rw [List.map_congr_left hmapeq, List.map_id]
  rw [hmap, List.take_of_length_le hlen, hstrip, if_neg hne, string_mk_data]

/-! ### C9: name sanitization, corrected -/

/-- C9 counterexample: the length-30 input
"aaaaaaaaaaaaaaa bbbbbbbbbbbbbb" (15 letters, a space, 14 letters) is
stored with 15 characters, not 16: `name[:16]` ends in a space that the
final `strip()` removes. -/
theorem sanitize_length30_counterexample :
    ("aaaaaaaaaaaaaaa bbbbbbbbbbbbbb" : String).data.length = 30 ∧
    (sanitize_name "aaaaaaaaaaaaaaa bbbbbbbbbbbbbb").data.length = 15 ∧
    ¬ (sanitize_name "aaaaaaaaaaaaaaa bbbbbbbbbbbbbb").data.length = 16 :=
  ⟨by decide, by decide, by decide⟩

/-- C9 amended: sanitization always yields a valid stored name. The empty
string maps to "PLAYER"; an input of length 30 is truncated to AT MOST 16
characters (exactly 16 for a run of 30 identical letters, but one fewer
when the cut ends in whitespace that the final strip removes); every
stored character is printable, so control characters and newlines never
appear; and save("  Ann\t", -5) on an empty leaderboard with keep_max 50
stores exactly the entry {name: "Ann", score: 0}. -/
theorem sanitize_name_spec_amended (s : String) :
    sanitize_name "" = "PLAYER" ∧
    (s.data.length = 30 → (sanitize_name s).data.length ≤ 16) ∧
    (sanitize_name (String.mk (List.replicate 30 'a'))).data.length = 16 ∧
    (∀ d ∈ (sanitize_name s).data,
      pyIsPrintable d = true ∧ d ∉ ['\n', '\r', '\t']) ∧
    save_highscore [] "  Ann\t" (-5) 50 = [⟨"Ann", 0⟩] := by
  obtain ⟨hne, hlen, hprint, hstrip⟩ := sanitize_name_wf s
  refine ⟨by decide, fun _ => hlen, by decide, ?_, by decide⟩
  intro d hd
  refine ⟨hprint d hd, ?_⟩
  intro hmem
  have hpd := hprint d hd
  simp only [List.mem_cons, List.not_mem_nil, or_false] at hmem
  rcases hmem with h | h | h <;> rw [h] at hpd <;> simp [pyIsPrintable] at hpd

/-- Witness for C9 amended, discharging the length-30 hypothesis. -/
theorem sanitize_name_spec_amended_witness :
    ("aaaaaaaaaaaaaaa bbbbbbbbbbbbbb" : String).data.length = 30 ∧
    (sanitize_name "aaaaaaaaaaaaaaa bbbbbbbbbbbbbb").data.length ≤ 16 :=
  ⟨by decide,
   (sanitize_name_spec_amended "aaaaaaaaaaaaaaa bbbbbbbbbbbbbb").2.1 (by decide)⟩

/-! ### Permutation and sortedness of the stable descending sort -/

theorem insertByScoreDesc_perm (e : HighScoreEntry) (l : List HighScoreEntry) :
    (insertByScoreDesc e l).Perm (e :: l) := by
  induction l with
  | nil => exact List.Perm.refl _
  | cons x t ih =>
    rw [insertByScoreDesc]
    by_cases h : x.score < e.score
    · rw [if_pos h]
    · rw [if_neg h]
      exact (ih.cons x).trans (List.Perm.swap e x t)

theorem sortByScoreDesc_perm (l : List HighScoreEntry) :
    (sortByScoreDesc l).Perm l := by
  induction l with
  | nil => exact List.Perm.refl _
  | cons x t ih =>
    show (insertByScoreDesc x (sortByScoreDesc t)).Perm (x :: t)
    exact (insertByScoreDesc_perm x _).trans (ih.cons x)

theorem insertByScoreDesc_sorted (e : HighScoreEntry)
    (l : List HighScoreEntry)
    (hl : List.Pairwise (fun a b => b.score ≤ a.score) l) :
    List.Pairwise (fun a b => b.score ≤ a.score) (insertByScoreDesc e l) := by
  induction l with
  | nil => simp [insertByScoreDesc]
  | cons x t ih =>
    rw [insertByScoreDesc]
    obtain ⟨hx, ht⟩ := List.pairwise_cons.mp hl
    by_cases h : x.score < e.score
    · rw [if_pos h]
      refine List.pairwise_cons.mpr ⟨?_, hl⟩
      intro b hb
      rcases List.mem_cons.mp hb with hbx | hbt
      · rw [hbx]
        exact le_of_lt h
      · exact le_trans (hx b hbt) (le_of_lt h)
    · rw [if_neg h]
      refine List.pairwise_cons.mpr ⟨?_, ih ht⟩
      intro b hb
      rcases List.mem_cons.mp ((insertByScoreDesc_perm e t).mem_iff.mp hb)
        with hbe | hbt
      · rw [hbe]
        exact le_of_not_lt h
      · exact hx b hbt

theorem sortByScoreDesc_sorted (l : List HighScoreEntry) :
    List.Pairwise (fun a b => b.score ≤ a.score) (sortByScoreDesc l) := by
  induction l with
  | nil => simp [sortByScoreDesc]
  | cons x t ih => exact insertByScoreDesc_sorted x _ ih

/-! ### Reading back what save wrote -/

theorem loadEntries_payload (entries : List HighScoreEntry) :
    loadEntries (entries.map fun e =>
      Json.obj [("name", Json.str e.name), ("score", Json.num e.score)]) =
    Except.ok (entries.map fun e =>
      (⟨sanitize_name e.name, max 0 e.score⟩ : HighScoreEntry)) := by
  induction entries with
  | nil => rfl
  | cons e t ih =>
    rw [List.map_cons, List.map_cons]
    show (loadEntries (t.map fun e =>
        Json.obj [("name", Json.str e.name), ("score", Json.num e.score)])).map
        (fun tl => (⟨sanitize_name e.name, max 0 e.score⟩ : HighScoreEntry) :: tl) =
      Except.ok ((⟨sanitize_name e.name, max 0 e.score⟩ : HighScoreEntry) ::
        t.map fun e => (⟨sanitize_name e.name, max 0 e.score⟩ : HighScoreEntry))
    rw [ih]
    rfl

theorem load_of_saved (entries : List HighScoreEntry) :
    load_highscores (some (payloadOfEntries entries)) =
    Except.ok (sortByScoreDesc (entries.map fun e =>
      (⟨sanitize_name e.name, max 0 e.score⟩ : HighScoreEntry))) := by
  show (loadEntries (entries.map fun e =>
      Json.obj [("name", Json.str e.name), ("score", Json.num e.score)])).map
      sortByScoreDesc = _
  rw [loadEntries_payload]
  rfl

/-! ### C6: save contract, corrected -/

/-- C6 counterexample: with keep_max = 1 and a higher pre-existing score,
the new entry ("B", clamped score 5) is truncated away: save returns the
old single-entry list, the written file holds only that entry, and a
subsequent load contains no entry with the sanitized name and clamped
score — the round-trip clause of the claim fails. -/
theorem save_roundtrip_counterexample :
    (save_highscore_run [⟨"A", 100⟩] "B" 5 1 true).1 = [⟨"A", 100⟩] ∧
    load_highscores (save_highscore_run [⟨"A", 100⟩] "B" 5 1 true).2 =
      Except.ok [⟨"A", 100⟩] ∧
    ¬ ∃ e ∈ [(⟨"A", 100⟩ : HighScoreEntry)],
        e.name = sanitize_name "B" ∧ e.score = max 0 (5 : ℤ) :=
  ⟨by decide, by rfl, by decide⟩

/-- C6 amended: for every prior leaderboard content, name, score,
keep_max ≥ 1 and persist outcome, save sanitizes the name, clamps the
score to ≥ 0, appends to the loaded entries, re-sorts descending,
truncates to keep_max entries, and returns exactly that in-memory list
regardless of whether the write succeeds (a write failure never reaches
the caller); when the write succeeds and the new entry survives the
keep_max truncation — in particular whenever fewer than keep_max entries
were loaded — a subsequent load of the written file contains an entry
with the sanitized name and clamped score. -/
theorem save_highscore_spec_amended (loaded : List HighScoreEntry)
    (name : String) (score keep_max : ℤ) (writeOk : Bool)
    (hkeep : 1 ≤ keep_max) :
    (save_highscore_run loaded name score keep_max writeOk).1 =
      save_highscore loaded name score keep_max ∧
    save_highscore loaded name score keep_max =
      (sortByScoreDesc (loaded ++ [⟨sanitize_name name, max 0 score⟩])).take
        keep_max.toNat ∧
    List.Pairwise (fun a b : HighScoreEntry => b.score ≤ a.score)
      (save_highscore loaded name score keep_max) ∧
    (save_highscore loaded name score keep_max).length ≤ keep_max.toNat ∧
    (loaded.length < keep_max.toNat →
      ∃ l, load_highscores
          (save_highscore_run loaded name score keep_max true).2 =
          Except.ok l ∧
        (⟨sanitize_name name, max 0 score⟩ : HighScoreEntry) ∈ l) := by
  have hmax : max 1 keep_max = keep_max := max_eq_right hkeep
  have heq : save_highscore loaded name score keep_max =
      (sortByScoreDesc (loaded ++ [⟨sanitize_name name, max 0 score⟩])).take
        keep_max.toNat := by
    unfold save_highscore
    rw [hmax]
  refine ⟨rfl, heq, ?_, ?_, ?_⟩
  · rw [heq]
    exact List.Pairwise.sublist (List.take_sublist _ _)
      (sortByScoreDesc_sorted _)
  · rw [heq]
    exact List.length_take_le _ _
  · intro hlt
    have hwrite : (save_highscore_run loaded name score keep_max true).2 =
        some (payloadOfEntries (save_highscore loaded name score keep_max)) :=
      rfl
    rw [hwrite, load_of_saved]
    refine ⟨_, rfl, ?_⟩
    have hlen2 : (sortByScoreDesc
        (loaded ++ [(⟨sanitize_name name, max 0 score⟩ : HighScoreEntry)])).length =
        loaded.length + 1 := by
      rw [(sortByScoreDesc_perm _).length_eq, List.length_append]
      rfl
    have hall : save_highscore loaded name score keep_max =
        sortByScoreDesc
          (loaded ++ [(⟨sanitize_name name, max 0 score⟩ : HighScoreEntry)]) := by
      rw [heq]
      apply List.take_of_length_le
      rw [hlen2]
      exact hlt
    have hmem : (⟨sanitize_name name, max 0 score⟩ : HighScoreEntry) ∈
        save_highscore loaded name score keep_max := by
      rw [hall]
      exact (sortByScoreDesc_perm _).mem_iff.mpr (by simp)
    have hfe : (⟨sanitize_name
          ((⟨sanitize_name name, max 0 score⟩ : HighScoreEntry)).name,
        max 0 ((⟨sanitize_name name, max 0 score⟩ : HighScoreEntry)).score⟩ :
          HighScoreEntry) =
        (⟨sanitize_name name, max 0 score⟩ : HighScoreEntry) := by
      rw [HighScoreEntry.mk.injEq]
      refine ⟨sanitize_name_idem name, ?_⟩
      show max 0 (max 0 score) = max 0 score
      omega
    have hfmem : (⟨sanitize_name name, max 0 score⟩ : HighScoreEntry) ∈
        (save_highscore loaded name score keep_max).map
          (fun e => (⟨sanitize_name e.name, max 0 e.score⟩ : HighScoreEntry)) := by
      rw [List.mem_map]
      exact ⟨_, hmem, hfe⟩
    exact (sortByScoreDesc_perm _).mem_iff.mpr hfmem

/-- Witness for C6 amended: empty prior leaderboard, keep_max 50. -/
theorem save_highscore_spec_amended_witness :
    (1 : ℤ) ≤ 50 ∧ ([] : List HighScoreEntry).length < (50 : ℤ).toNat ∧
    ∃ l, load_highscores
        (save_highscore_run [] "  Ann\t" (-5) 50 true).2 = Except.ok l ∧
      (⟨sanitize_name "  Ann\t", max 0 (-5 : ℤ)⟩ : HighScoreEntry) ∈ l :=
  ⟨by norm_num, by decide,
   (save_highscore_spec_amended [] "  Ann\t" (-5) 50 true
     (by norm_num)).2.2.2.2 (by decide)⟩

/-! ### C7: load is not error-free -/

/-- C7: the claim that load never surfaces an error is contradicted by the
code: the payload processing sits outside the try/except, so a valid JSON
file whose entry has a truthy non-string "name" (here the number 5) makes
`_sanitize_name` call `.strip()` on a non-string and raises
AttributeError to the caller. All the malformed shapes the claim lists do
degrade gracefully: missing file, non-object top level, missing or
non-list "scores" field, non-object entries skipped, missing name/score
defaulted ("PLAYER"/0), non-numeric score defaulted to 0, result sorted
descending. -/
theorem load_surfaces_error_on_nonstring_name :
    load_highscores (some (Json.obj [("scores",
        Json.arr [Json.obj [("name", Json.num 5), ("score", Json.num 1)]])])) =
      Except.error "AttributeError" ∧
    load_highscores none = Except.ok [] ∧
    load_highscores (some (Json.str "garbage")) = Except.ok [] ∧
    load_highscores (some (Json.obj [("other", Json.num 3)])) = Except.ok [] ∧
    load_highscores (some (Json.obj [("scores", Json.num 3)])) =
      Except.ok [] ∧
    load_highscores (some (Json.obj [("scores",
        Json.arr [Json.num 7, Json.obj []])])) = Except.ok [⟨"PLAYER", 0⟩] ∧
    load_highscores (some (Json.obj [("scores", Json.arr [Json.obj [
        ("name", Json.str "Zoe"), ("score", Json.str "x")]])])) =
      Except.ok [⟨"Zoe", 0⟩] ∧
    load_highscores (some (Json.obj [("scores", Json.arr [
        Json.obj [("name", Json.str "Lo"), ("score", Json.num 3)],
        Json.obj [("name", Json.str "Hi"), ("score", Json.num 9)]])])) =
      Except.ok [⟨"Hi", 9⟩, ⟨"Lo", 3⟩] :=
  ⟨rfl, rfl, rfl, rfl, rfl, rfl, rfl, rfl⟩

end SnakeGame
